import Mathlib

/-!
Shallow embedding of the assistive-vision application (two entry-point
variants: a cloud-speech variant and a local-vocoder variant).

The embedding covers:
* the per-frame object-detection pipeline of `VideoProcessor.recv`
  (label resolution with silent skip of out-of-range class ids, overlay
  drawing, sentence composition, speak-on-change with a remembered last
  sentence), for both variants;
* the still-image OCR pipeline (whitespace normalisation of the raw OCR
  string, the empty-text branch, speech synthesis of the extracted text);
* the OCR preprocessing pipeline `preprocess_image`, over abstract image
  operations.

Python strings of the video pipeline are modelled as `String`; the OCR
text, which needs character-level reasoning, is modelled as `List Char`
with whitespace given by `Char.isWhitespace`.  Python `set(labels)`
iterates in an unspecified order; it is modelled by `List.dedup`
(first-occurrence order), a deterministic refinement; no claim below
depends on the particular order.
-/

/-- A single detection retained by the detector at confidence ≥ 0.4:
the numeric class id `int(box.cls[0])` (non-negative) and the integer
pixel bounding box `box.xyxy[0].int().tolist()` as (x1, y1, x2, y2). -/
structure Detection where
  cls : Nat
  box : Int × Int × Int × Int
deriving DecidableEq

/-- The static outdoor label table of both source files. -/
def OUTDOOR_CLASS_NAMES : List String :=
  ["Ambulance", "Auto-Rikshaw", "bike", "bus", "car",
   "puddle", "stairs", "truck", "van", "zebra-crossing"]

/-- `class_names[cls_id]` under the `try ... except IndexError: continue`
of the detection loop: a valid index resolves to its label, an index out
of range resolves to nothing. -/
def resolveLabel (classNames : List String) (clsId : Nat) : Option String :=
  classNames.get? clsId

/-- The detection loop of `recv`: for each box in order, resolve the
class id; on success record the label (appended to `labels`) together
with the rectangle drawn on the frame (its box, labelled with the
resolved label); on `IndexError`, `continue`. -/
def retainedPairs (classNames : List String) (dets : List Detection) :
    List (String × (Int × Int × Int × Int)) :=
  dets.filterMap fun d => (resolveLabel classNames d.cls).map fun l => (l, d.box)

/-- The `labels` list accumulated by the detection loop. -/
def retainedLabels (classNames : List String) (dets : List Detection) : List String :=
  (retainedPairs classNames dets).map Prod.fst

/-- `" and ".join(set(labels)) + " ahead"`, with `set` modelled by
`List.dedup` (first-occurrence order). -/
def composeSentence (labels : List String) : String :=
  String.intercalate " and " labels.dedup ++ " ahead"

/-- The two speech backends: `gTTS` in the cloud variant (`app.py`),
the local Coqui `TTS` model in the mobile variant. -/
inductive SpeechBackend where
  | gtts
  | coqui
deriving DecidableEq

/-- Observable side effects of one `recv` call, in program order:
the assignment `self.last_sentence = sentence` and the speech-synthesis
call for a sentence on a backend. -/
inductive Event where
  | updateLast (s : String)
  | speak (backend : SpeechBackend) (s : String)
deriving DecidableEq

/-- Result of one `recv` call: the rectangles/label texts drawn onto the
frame (one per retained detection, in loop order), the side-effect trace,
and the value of `self.last_sentence` after the call. -/
structure RecvResult where
  overlay : List (String × (Int × Int × Int × Int))
  events : List Event
  newLast : String
deriving DecidableEq

/-- `VideoProcessor.recv` of `app.py` (cloud-speech variant): run the
detection loop, then `if labels:` compose the sentence; if it differs
from `self.last_sentence`, first assign `self.last_sentence = sentence`,
then `speak_text(sentence)` via the gTTS backend. -/
def recvApp (classNames : List String) (dets : List Detection) (last : String) :
    RecvResult :=
  let retained := retainedPairs classNames dets
  let labels := retained.map Prod.fst
  if labels = [] then ⟨retained, [], last⟩
  else
    let sentence := composeSentence labels
    if sentence ≠ last then
      ⟨retained, [Event.updateLast sentence, Event.speak SpeechBackend.gtts sentence], sentence⟩
    else ⟨retained, [], last⟩

/-- `VideoProcessor.recv` of `stream_mobile.py` (local-vocoder variant):
identical detection loop and sentence logic; on a changed sentence it
assigns `self.last_sentence = sentence` and then synthesises via the
local Coqui TTS backend. -/
def recvMobile (classNames : List String) (dets : List Detection) (last : String) :
    RecvResult :=
  let retained := retainedPairs classNames dets
  let labels := retained.map Prod.fst
  if labels = [] then ⟨retained, [], last⟩
  else
    let sentence := composeSentence labels
    if sentence ≠ last then
      ⟨retained, [Event.updateLast sentence, Event.speak SpeechBackend.coqui sentence], sentence⟩
    else ⟨retained, [], last⟩

/-- Texts for which speech synthesis is invoked in a side-effect trace. -/
def speaksOf (evs : List Event) : List String :=
  evs.filterMap fun e =>
    match e with
    | Event.speak _ s => some s
    | Event.updateLast _ => none

/-- Whitespace, as used by Python `str.split()` with no argument. -/
def isWs (c : Char) : Bool :=
  c.isWhitespace

/-- Negation of `isWs`, the membership test for a word. -/
def nws (c : Char) : Bool :=
  !(isWs c)

/-- Python `text.split()` (no argument): the maximal runs of
non-whitespace characters, in order; leading, trailing and repeated
whitespace produce no empty pieces. -/
def pyStrSplit : List Char → List (List Char)
  | [] => []
  | c :: cs =>
    if isWs c then pyStrSplit cs
    else (c :: cs.takeWhile nws) :: pyStrSplit (cs.dropWhile nws)
termination_by cs => cs.length
decreasing_by
· simp only [List.length_cons]
  exact Nat.lt_succ_self _
· simp only [List.length_cons]
  exact Nat.lt_succ_of_le (List.dropWhile_sublist nws).length_le

/-- Python `" ".join(pieces)` for the (never-empty) pieces produced by
`str.split()`. -/
def joinSpace : List (List Char) → List Char
  | [] => []
  | [w] => w
  | w :: ws => w ++ ' ' :: joinSpace ws

/-- `" ".join(text.split())`, the whitespace normalisation both source
files apply to the raw OCR string. -/
def normalizeText (cs : List Char) : List Char :=
  joinSpace (pyStrSplit cs)

/-- Modelled from the spec: replace each maximal run of whitespace
characters by a single space (the first step of "collapse all whitespace
runs to single spaces and trim"). -/
def collapseRuns : List Char → List Char
  | [] => []
  | c :: cs =>
    if isWs c then ' ' :: collapseRuns (cs.dropWhile isWs)
    else c :: collapseRuns cs
termination_by cs => cs.length
decreasing_by
· simp only [List.length_cons]
  exact Nat.lt_succ_of_le (List.dropWhile_sublist isWs).length_le
· simp only [List.length_cons]
  exact Nat.lt_succ_self _

/-- Modelled from the spec: remove trailing whitespace. -/
def dropTrailingWs (cs : List Char) : List Char :=
  ((cs.reverse).dropWhile isWs).reverse

/-- Modelled from the spec: "collapse all whitespace runs to single
spaces and trim" — collapse runs, then remove leading and trailing
whitespace. -/
def specNormalize (cs : List Char) : List Char :=
  dropTrailingWs ((collapseRuns cs).dropWhile isWs)

/-- Outcome of the still-image OCR path on a captured image, given the
raw string returned by the OCR engine: what is surfaced as extracted
text (`st.success`), whether the "No text found in the image." warning
is shown, and the text sent to speech synthesis, if any. -/
structure OcrResult where
  displayedText : Option (List Char)
  warning : Bool
  spoken : Option (List Char)
deriving DecidableEq

/-- The OCR-to-TTS branch of both source files:
`text = " ".join(text.split())`; `if text:` surface it and synthesise
speech for it, `else` show the warning. -/
def ocrPipeline (raw : List Char) : OcrResult :=
  let text := normalizeText raw
  if text = [] then ⟨none, true, none⟩
  else ⟨some text, false, some text⟩

/-- Interpolation modes of `cv2.resize` that matter here. -/
inductive Interpolation where
  | linear
  | nearest

/-- Adaptive-threshold methods of `cv2.adaptiveThreshold`. -/
inductive AdaptiveMethod where
  | gaussianC
  | meanC

/-- Threshold types of `cv2.adaptiveThreshold`. -/
inductive ThresholdType where
  | binary
  | binaryInv

/-- The opaque image operations used by `preprocess_image`, over an
abstract image type: grayscale conversion, scaling by factors with an
interpolation mode, Gaussian blur with a kernel size, adaptive
thresholding (max value, method, threshold type, block size, constant
offset), and contrast enhancement by a factor. -/
structure ImageOps (Img : Type) where
  cvtColorToGray : Img → Img
  resizeScale : Img → Rat → Rat → Interpolation → Img
  gaussianBlur : Img → Nat × Nat → Img
  adaptiveThreshold : Img → Nat → AdaptiveMethod → ThresholdType → Nat → Int → Img
  enhanceContrast : Img → Rat → Img

/-- `preprocess_image` of both source files: grayscale; `cv2.resize`
with `fx = fy = 1.5` and `INTER_LINEAR`; `cv2.GaussianBlur` with a
(5, 5) kernel; `cv2.adaptiveThreshold` with max value 255,
`ADAPTIVE_THRESH_GAUSSIAN_C`, `THRESH_BINARY`, block size 11, constant
2; `ImageEnhance.Contrast(...).enhance(2.0)`. -/
def preprocess_image {Img : Type} (ops : ImageOps Img) (pil_image : Img) : Img :=
  let gray := ops.cvtColorToGray pil_image
  let gray := ops.resizeScale gray (3 / 2) (3 / 2) Interpolation.linear
  let blur := ops.gaussianBlur gray (5, 5)
  let thresh := ops.adaptiveThreshold blur 255 AdaptiveMethod.gaussianC ThresholdType.binary 11 2
  ops.enhanceContrast thresh 2

/-- One session of the cloud variant: frames are delivered in order and
`recv` is invoked on each, threading `self.last_sentence`; returns the
concatenated side-effect trace and the final remembered sentence. -/
def runFrames (classNames : List String) (frames : List (List Detection))
    (last : String) : List Event × String :=
  match frames with
  | [] => ([], last)
  | f :: fs =>
    let r := recvApp classNames f last
    let rest := runFrames classNames fs r.newLast
    (r.events ++ rest.1, rest.2)

/-! ## Helper lemmas -/

theorem recvApp_eq (cn : List String) (dets : List Detection) (last : String) :
    recvApp cn dets last =
      if retainedLabels cn dets = [] then ⟨retainedPairs cn dets, [], last⟩
      else if composeSentence (retainedLabels cn dets) = last then
        ⟨retainedPairs cn dets, [], last⟩
      else
        ⟨retainedPairs cn dets,
         [Event.updateLast (composeSentence (retainedLabels cn dets)),
          Event.speak SpeechBackend.gtts (composeSentence (retainedLabels cn dets))],
         composeSentence (retainedLabels cn dets)⟩ := by
  unfold recvApp retainedLabels
  by_cases h1 : (retainedPairs cn dets).map Prod.fst = []
  · simp [h1]
  · by_cases h2 : composeSentence ((retainedPairs cn dets).map Prod.fst) = last
    · simp [h1, h2]
    · simp [h1, h2]

theorem recvMobile_eq (cn : List String) (dets : List Detection) (last : String) :
    recvMobile cn dets last =
      if retainedLabels cn dets = [] then ⟨retainedPairs cn dets, [], last⟩
      else if composeSentence (retainedLabels cn dets) = last then
        ⟨retainedPairs cn dets, [], last⟩
      else
        ⟨retainedPairs cn dets,
         [Event.updateLast (composeSentence (retainedLabels cn dets)),
          Event.speak SpeechBackend.coqui (composeSentence (retainedLabels cn dets))],
         composeSentence (retainedLabels cn dets)⟩ := by
  unfold recvMobile retainedLabels
  by_cases h1 : (retainedPairs cn dets).map Prod.fst = []
  · simp [h1]
  · by_cases h2 : composeSentence ((retainedPairs cn dets).map Prod.fst) = last
    · simp [h1, h2]
    · simp [h1, h2]

theorem recvApp_overlay (cn : List String) (dets : List Detection) (last : String) :
    (recvApp cn dets last).overlay = retainedPairs cn dets := by
  rw [recvApp_eq]
  by_cases h1 : retainedLabels cn dets = []
  · simp [h1]
  · by_cases h2 : composeSentence (retainedLabels cn dets) = last
    · simp [h1, h2]
    · simp [h1, h2]

theorem runFrames_nil (cn : List String) (last : String) :
    runFrames cn [] last = ([], last) :=
  rfl

theorem runFrames_cons (cn : List String) (f : List Detection)
    (fs : List (List Detection)) (last : String) :
    runFrames cn (f :: fs) last =
      ((recvApp cn f last).events ++ (runFrames cn fs (recvApp cn f last).newLast).1,
       (runFrames cn fs (recvApp cn f last).newLast).2) :=
  rfl

theorem recvApp_step (cn : List String) (dets : List Detection) (last : String)
    (h : retainedLabels cn dets ≠ []) :
    speaksOf (recvApp cn dets last).events =
      (if composeSentence (retainedLabels cn dets) = last then []
       else [composeSentence (retainedLabels cn dets)]) ∧
    (recvApp cn dets last).newLast = composeSentence (retainedLabels cn dets) := by
  rw [recvApp_eq, if_neg h]
  by_cases h2 : composeSentence (retainedLabels cn dets) = last
  · simp [h2, speaksOf]
  · simp [h2, speaksOf]

theorem recvApp_newLast_cases (cn : List String) (dets : List Detection) (last : String) :
    (recvApp cn dets last).newLast = last ∨
    (retainedLabels cn dets ≠ [] ∧
      (recvApp cn dets last).newLast = composeSentence (retainedLabels cn dets)) := by
  rw [recvApp_eq]
  by_cases h1 : retainedLabels cn dets = []
  · left
    simp [h1]
  · right
    refine ⟨h1, ?_⟩
    by_cases h2 : composeSentence (retainedLabels cn dets) = last
    · simp [h1, h2]
    · simp [h1, h2]

theorem runFrames_last_cases (cn : List String) :
    ∀ (frames : List (List Detection)) (init : String),
      (runFrames cn frames init).2 = init ∨
      ∃ f ∈ frames, retainedLabels cn f ≠ [] ∧
        (runFrames cn frames init).2 = composeSentence (retainedLabels cn f) := by
  intro frames
  induction frames with
  | nil =>
    intro init
    left
    rfl
  | cons f fs ih =>
    intro init
    have hsnd : (runFrames cn (f :: fs) init).2 =
        (runFrames cn fs ((recvApp cn f init).newLast)).2 := by
      rw [runFrames_cons]
    rcases ih ((recvApp cn f init).newLast) with h | ⟨g, hg, hgl, hEq⟩
    · rcases recvApp_newLast_cases cn f init with h2 | ⟨hne, h2⟩
      · left
        rw [hsnd, h, h2]
      · right
        exact ⟨f, by simp, hne, by rw [hsnd, h, h2]⟩
    · right
      exact ⟨g, by simp [hg], hgl, by rw [hsnd, hEq]⟩

theorem pyStrSplit_nil : pyStrSplit [] = [] := by
  simp [pyStrSplit]

theorem pyStrSplit_cons_ws {c : Char} (cs : List Char) (h : isWs c = true) :
    pyStrSplit (c :: cs) = pyStrSplit cs := by
  rw [pyStrSplit]
  simp [h]

theorem pyStrSplit_cons_nws {c : Char} (cs : List Char) (h : isWs c = false) :
    pyStrSplit (c :: cs) = (c :: cs.takeWhile nws) :: pyStrSplit (cs.dropWhile nws) := by
  rw [pyStrSplit]
  simp [h]

theorem collapseRuns_nil : collapseRuns [] = [] := by
  simp [collapseRuns]

theorem collapseRuns_cons_ws {c : Char} (cs : List Char) (h : isWs c = true) :
    collapseRuns (c :: cs) = ' ' :: collapseRuns (cs.dropWhile isWs) := by
  rw [collapseRuns]
  simp [h]

theorem collapseRuns_cons_nws {c : Char} (cs : List Char) (h : isWs c = false) :
    collapseRuns (c :: cs) = c :: collapseRuns cs := by
  rw [collapseRuns]
  simp [h]

theorem joinSpace_cons_cons (w a : List Char) (l : List (List Char)) :
    joinSpace (w :: a :: l) = w ++ ' ' :: joinSpace (a :: l) :=
  rfl

theorem pyStrSplit_dropWhile (cs : List Char) :
    pyStrSplit (cs.dropWhile isWs) = pyStrSplit cs := by
  induction cs with
  | nil => rfl
  | cons c cs ih =>
    cases hc : isWs c with
    | true => rw [List.dropWhile_cons_of_pos hc, ih, pyStrSplit_cons_ws cs hc]
    | false => rw [List.dropWhile_cons_of_neg (by simp [hc])]

theorem collapseRuns_nws_prefix (w r : List Char) (hw : ∀ a ∈ w, isWs a = false) :
    collapseRuns (w ++ r) = w ++ collapseRuns r := by
  induction w with
  | nil => rfl
  | cons a t ih =>
    rw [List.cons_append, collapseRuns_cons_nws (t ++ r) (hw a (by simp)),
      ih (fun b hb => hw b (by simp [hb])), List.cons_append]

theorem dropWhile_eq_self_of_all (p : Char → Bool) (l : List Char)
    (h : ∀ a ∈ l, p a = false) : l.dropWhile p = l := by
  cases l with
  | nil => rfl
  | cons a t => exact List.dropWhile_cons_of_neg (by simp [h a (by simp)])

theorem dropWhile_head_false (p : Char → Bool) (l : List Char) (c : Char)
    (t : List Char) (h : l.dropWhile p = c :: t) : p c = false := by
  induction l with
  | nil => simp at h
  | cons a l ih =>
    cases ha : p a with
    | false =>
      rw [List.dropWhile_cons_of_neg (by simp [ha])] at h
      injection h with h1 h2
      exact h1 ▸ ha
    | true =>
      rw [List.dropWhile_cons_of_pos ha] at h
      exact ih h

theorem dropTrailingWs_all_nws (l : List Char) (h : ∀ a ∈ l, isWs a = false) :
    dropTrailingWs l = l := by
  unfold dropTrailingWs
  rw [dropWhile_eq_self_of_all isWs l.reverse (fun a ha => h a (List.mem_reverse.mp ha)),
    List.reverse_reverse]

theorem dropTrailingWs_append_ws (x : List Char) (c : Char) (h : isWs c = true) :
    dropTrailingWs (x ++ [c]) = dropTrailingWs x := by
  unfold dropTrailingWs
  rw [List.reverse_append, List.reverse_singleton, List.singleton_append,
    List.dropWhile_cons_of_pos h]

theorem dropTrailingWs_ne_nil (c : Char) (t : List Char) (h : isWs c = false) :
    dropTrailingWs (c :: t) ≠ [] := by
  unfold dropTrailingWs
  intro hno
  rw [List.reverse_eq_nil_iff] at hno
  have h2 := List.dropWhile_eq_nil_iff.mp hno c (by simp)
  rw [h] at h2
  exact Bool.false_ne_true h2

theorem dropWhile_append_of_ne_nil (p : Char → Bool) (a b : List Char) (c : Char)
    (t : List Char) (h : a.dropWhile p = c :: t) :
    (a ++ b).dropWhile p = (c :: t) ++ b := by
  induction a with
  | nil => simp at h
  | cons x xs ih =>
    cases hx : p x with
    | false =>
      rw [List.dropWhile_cons_of_neg (by simp [hx])] at h
      rw [List.cons_append, List.dropWhile_cons_of_neg (by simp [hx]), ← h,
        List.cons_append]
    | true =>
      rw [List.dropWhile_cons_of_pos hx] at h
      rw [List.cons_append, List.dropWhile_cons_of_pos hx]
      exact ih h

theorem dropTrailingWs_append_mid (x y : List Char) (c : Char)
    (h : dropTrailingWs y ≠ []) :
    dropTrailingWs (x ++ c :: y) = x ++ c :: dropTrailingWs y := by
  obtain ⟨d, t, hdt⟩ : ∃ d t, y.reverse.dropWhile isWs = d :: t := by
    cases hEq : y.reverse.dropWhile isWs with
    | nil =>
      exfalso
      apply h
      unfold dropTrailingWs
      rw [hEq, List.reverse_nil]
    | cons d t => exact ⟨d, t, rfl⟩
  unfold dropTrailingWs
  rw [List.reverse_append, List.reverse_cons, List.append_assoc, List.singleton_append,
    dropWhile_append_of_ne_nil isWs y.reverse (c :: x.reverse) d t hdt, ← hdt,
    List.reverse_append, List.reverse_cons, List.reverse_reverse, List.append_assoc,
    List.singleton_append]

theorem normalize_aux :
    ∀ (n : Nat) (cs : List Char), cs.length ≤ n →
      joinSpace (pyStrSplit cs) = specNormalize cs := by
  intro n
  induction n with
  | zero =>
    intro cs hcs
    have hnil : cs = [] := List.eq_nil_of_length_eq_zero (Nat.le_zero.mp hcs)
    subst hnil
    simp [pyStrSplit_nil, specNormalize, collapseRuns_nil, dropTrailingWs, joinSpace]
  | succ n ih =>
    intro cs hcs
    cases cs with
    | nil => simp [pyStrSplit_nil, specNormalize, collapseRuns_nil, dropTrailingWs, joinSpace]
    | cons c rest =>
      have hrest : rest.length ≤ n := by
        simp only [List.length_cons] at hcs
        omega
      cases hc : isWs c with
      | true =>
        rw [pyStrSplit_cons_ws rest hc, ← pyStrSplit_dropWhile rest]
        have hspec : specNormalize (c :: rest) = specNormalize (rest.dropWhile isWs) := by
          unfold specNormalize
          rw [collapseRuns_cons_ws rest hc,
            List.dropWhile_cons_of_pos (by decide : isWs ' ' = true)]
        rw [hspec]
        exact ih (rest.dropWhile isWs)
          (le_trans (List.dropWhile_sublist isWs).length_le hrest)
      | false =>
        rw [pyStrSplit_cons_nws rest hc]
        have hw : ∀ a ∈ rest.takeWhile nws, isWs a = false := fun a ha => by
          simpa [nws] using List.mem_takeWhile_imp ha
        have hcw : ∀ a ∈ c :: rest.takeWhile nws, isWs a = false := by
          intro a ha
          rcases List.mem_cons.mp ha with h | h
          · exact h ▸ hc
          · exact hw a h
        have hcoll : collapseRuns rest =
            rest.takeWhile nws ++ collapseRuns (rest.dropWhile nws) := by
          conv_lhs => rw [← List.takeWhile_append_dropWhile nws rest]
          exact collapseRuns_nws_prefix _ _ hw
        have hspecEq : specNormalize (c :: rest) =
            dropTrailingWs ((c :: rest.takeWhile nws) ++ collapseRuns (rest.dropWhile nws)) := by
          unfold specNormalize
          rw [collapseRuns_cons_nws rest hc, hcoll,
            List.dropWhile_cons_of_neg (by simp [hc]), List.cons_append]
        rw [hspecEq]
        cases hr : rest.dropWhile nws with
        | nil =>
          rw [pyStrSplit_nil, collapseRuns_nil, List.append_nil,
            dropTrailingWs_all_nws _ hcw]
          rfl
        | cons r0 r1 =>
          have hr0 : isWs r0 = true := by
            have hnf := dropWhile_head_false nws rest r0 r1 hr
            simpa [nws] using hnf
          rw [pyStrSplit_cons_ws r1 hr0, ← pyStrSplit_dropWhile r1,
            collapseRuns_cons_ws r1 hr0]
          cases hr2 : r1.dropWhile isWs with
          | nil =>
            rw [pyStrSplit_nil, collapseRuns_nil,
              dropTrailingWs_append_ws _ ' ' (by decide),
              dropTrailingWs_all_nws _ hcw]
            rfl
          | cons d t =>
            have hd : isWs d = false := dropWhile_head_false isWs r1 d t hr2
            have hlen : (d :: t).length ≤ n := by
              have h1 : (d :: t).length ≤ r1.length := by
                rw [← hr2]
                exact (List.dropWhile_sublist isWs).length_le
              have h2 : (r0 :: r1).length ≤ rest.length := by
                rw [← hr]
                exact (List.dropWhile_sublist nws).length_le
              simp only [List.length_cons] at h1 h2 ⊢
              omega
            have hIH := ih (d :: t) hlen
            have hspec2 : specNormalize (d :: t) = dropTrailingWs (collapseRuns (d :: t)) := by
              unfold specNormalize
              rw [collapseRuns_cons_nws t hd, List.dropWhile_cons_of_neg (by simp [hd])]
            have hne2 : dropTrailingWs (collapseRuns (d :: t)) ≠ [] := by
              rw [collapseRuns_cons_nws t hd]
              exact dropTrailingWs_ne_nil d _ hd
            rw [dropTrailingWs_append_mid _ _ ' ' hne2]
            have hsplit2 : pyStrSplit (d :: t) =
                (d :: t.takeWhile nws) :: pyStrSplit (t.dropWhile nws) :=
              pyStrSplit_cons_nws t hd
            rw [hsplit2, joinSpace_cons_cons, ← hsplit2, hIH, hspec2]

/-! ## Claims -/

/-- C1: for every non-empty list of retained detection labels (possibly
with duplicates), the composed sentence is the `" and "`-join of a
duplicate-free list containing exactly the distinct labels, suffixed
with `" ahead"` — so each distinct label appears exactly once. -/
theorem composeSentence_distinct_labels (labels : List String) (h : labels ≠ []) :
    ∃ ds : List String, ds.Nodup ∧ (∀ l, l ∈ ds ↔ l ∈ labels) ∧
      composeSentence labels = String.intercalate " and " ds ++ " ahead" :=
  ⟨labels.dedup, labels.nodup_dedup, fun _ => List.mem_dedup, rfl⟩

/-- Witness for C1 at the concrete label list `["car", "car", "bus"]`. -/
theorem composeSentence_distinct_labels_witness :
    ∃ ds : List String, ds.Nodup ∧ (∀ l, l ∈ ds ↔ l ∈ ["car", "car", "bus"]) ∧
      composeSentence ["car", "car", "bus"] = String.intercalate " and " ds ++ " ahead" :=
  composeSentence_distinct_labels ["car", "car", "bus"] (by decide)

/-- C3: a detection whose class id is out of range of the active label
table resolves to no label, contributes no rectangle or label text to
the overlay, and leaves the whole `recv` result (overlay, speech events,
remembered sentence) exactly as if the detection were absent. -/
theorem oob_detection_dropped (cn : List String) (d : Detection)
    (pre post : List Detection) (last : String) (h : cn.length ≤ d.cls) :
    resolveLabel cn d.cls = none ∧
    retainedPairs cn (pre ++ d :: post) = retainedPairs cn (pre ++ post) ∧
    recvApp cn (pre ++ d :: post) last = recvApp cn (pre ++ post) last := by
  have hres : resolveLabel cn d.cls = none := by
    unfold resolveLabel
    exact List.get?_eq_none.mpr h
  have hpairs : retainedPairs cn (pre ++ d :: post) = retainedPairs cn (pre ++ post) := by
    unfold retainedPairs
    simp [List.filterMap_append, List.filterMap_cons, hres]
  refine ⟨hres, hpairs, ?_⟩
  rw [recvApp_eq, recvApp_eq]
  unfold retainedLabels
  rw [hpairs]

/-- Witness for C3: class id 3 against a 1-entry label table. -/
theorem oob_detection_dropped_witness :
    resolveLabel ["door"] 3 = none ∧
    retainedPairs ["door"] ([⟨0, (0, 0, 4, 4)⟩] ++ ⟨3, (1, 1, 2, 2)⟩ :: []) =
      retainedPairs ["door"] ([⟨0, (0, 0, 4, 4)⟩] ++ []) ∧
    recvApp ["door"] ([⟨0, (0, 0, 4, 4)⟩] ++ ⟨3, (1, 1, 2, 2)⟩ :: []) "" =
      recvApp ["door"] ([⟨0, (0, 0, 4, 4)⟩] ++ []) "" :=
  oob_detection_dropped ["door"] ⟨3, (1, 1, 2, 2)⟩ [⟨0, (0, 0, 4, 4)⟩] [] "" (by decide)

/-- C4: on a frame whose retained detection set is empty, no speech
event is emitted at all (so no sentence is synthesised) and the
remembered last sentence is unchanged. -/
theorem empty_frame_no_speech (cn : List String) (dets : List Detection)
    (last : String) (h : retainedLabels cn dets = []) :
    (recvApp cn dets last).events = [] ∧
    speaksOf (recvApp cn dets last).events = [] ∧
    (recvApp cn dets last).newLast = last := by
  rw [recvApp_eq, if_pos h]
  exact ⟨rfl, rfl, rfl⟩

/-- Witness for C4: a frame with no detections at all. -/
theorem empty_frame_no_speech_witness :
    (recvApp OUTDOOR_CLASS_NAMES [] "car ahead").events = [] ∧
    speaksOf (recvApp OUTDOOR_CLASS_NAMES [] "car ahead").events = [] ∧
    (recvApp OUTDOOR_CLASS_NAMES [] "car ahead").newLast = "car ahead" :=
  empty_frame_no_speech OUTDOOR_CLASS_NAMES [] "car ahead" rfl

/-- C7: the still-image preprocessing applies exactly these steps in
this order: grayscale conversion; 1.5× upscale with linear
interpolation; 5×5 Gaussian blur; adaptive thresholding with
Gaussian-weighted local mean, block size 11, constant offset 2, binary
output; contrast enhancement by the fixed factor 2.0. -/
theorem preprocess_image_steps {Img : Type} (ops : ImageOps Img) (img : Img) :
    preprocess_image ops img =
      ops.enhanceContrast
        (ops.adaptiveThreshold
          (ops.gaussianBlur
            (ops.resizeScale (ops.cvtColorToGray img) (3 / 2) (3 / 2) Interpolation.linear)
            (5, 5))
          255 AdaptiveMethod.gaussianC ThresholdType.binary 11 2)
        2 :=
  rfl

/-- C8: with the outdoor label table, a frame whose detections resolve
to the labels car, car, bus (class ids 4, 4, 3, all in range, arbitrary
boxes) composes the sentence "car and bus ahead" or "bus and car ahead",
and the overlay holds exactly 3 rectangles, one per retained detection,
duplicates included. -/
theorem outdoor_car_car_bus (b1 b2 b3 : Int × Int × Int × Int) (last : String) :
    (composeSentence (retainedLabels OUTDOOR_CLASS_NAMES [⟨4, b1⟩, ⟨4, b2⟩, ⟨3, b3⟩]) =
        "car and bus ahead" ∨
      composeSentence (retainedLabels OUTDOOR_CLASS_NAMES [⟨4, b1⟩, ⟨4, b2⟩, ⟨3, b3⟩]) =
        "bus and car ahead") ∧
    (recvApp OUTDOOR_CLASS_NAMES [⟨4, b1⟩, ⟨4, b2⟩, ⟨3, b3⟩] last).overlay.length = 3 := by
  have hl : retainedLabels OUTDOOR_CLASS_NAMES [⟨4, b1⟩, ⟨4, b2⟩, ⟨3, b3⟩] =
      ["car", "car", "bus"] := by
    simp [retainedLabels, retainedPairs, resolveLabel, OUTDOOR_CLASS_NAMES]
  constructor
  · left
    rw [hl]
    decide
  · rw [recvApp_overlay]
    simp [retainedPairs, resolveLabel, OUTDOOR_CLASS_NAMES]

/-- C9: on the same detections, label table and remembered sentence, the
two entry-point variants draw the same overlay, end with the same
remembered sentence, synthesise exactly the same texts, and emit the
same events up to the speech backend (gTTS in one, Coqui TTS in the
other). -/
theorem variants_equivalent (cn : List String) (dets : List Detection) (last : String) :
    (recvApp cn dets last).overlay = (recvMobile cn dets last).overlay ∧
    (recvApp cn dets last).newLast = (recvMobile cn dets last).newLast ∧
    speaksOf (recvApp cn dets last).events = speaksOf (recvMobile cn dets last).events ∧
    (∀ s : String,
      Event.speak SpeechBackend.gtts s ∈ (recvApp cn dets last).events ↔
        Event.speak SpeechBackend.coqui s ∈ (recvMobile cn dets last).events) ∧
    (∀ s : String,
      Event.updateLast s ∈ (recvApp cn dets last).events ↔
        Event.updateLast s ∈ (recvMobile cn dets last).events) := by
  rw [recvApp_eq, recvMobile_eq]
  by_cases h1 : retainedLabels cn dets = []
  · simp [h1, speaksOf]
  · by_cases h2 : composeSentence (retainedLabels cn dets) = last
    · simp [h1, h2, speaksOf]
    · simp [h1, h2, speaksOf]

/-- C2: over a session processing a sequence of frames that all compose
the identical sentence `s`, speech is synthesised for `s` at most once —
exactly once when `s` differs from the remembered sentence at the start,
never when it does not — the remembered sentence ends equal to `s`, and
per frame: speech is synthesised exactly when the composed sentence
differs from the remembered sentence, which is updated at that same
occurrence. -/
theorem consecutive_identical_speak_once (cn : List String) (s : String)
    (frames : List (List Detection)) (last : String)
    (hall : ∀ f ∈ frames,
      retainedLabels cn f ≠ [] ∧ composeSentence (retainedLabels cn f) = s) :
    speaksOf (runFrames cn frames last).1 = (if frames = [] ∨ s = last then [] else [s]) ∧
    (runFrames cn frames last).2 = (if frames = [] then last else s) ∧
    ∀ f : List Detection, retainedLabels cn f ≠ [] →
      speaksOf (recvApp cn f last).events =
        (if composeSentence (retainedLabels cn f) = last then []
         else [composeSentence (retainedLabels cn f)]) ∧
      (recvApp cn f last).newLast = composeSentence (retainedLabels cn f) := by
  refine ⟨?_, ?_, fun f hf => recvApp_step cn f last hf⟩
  · induction frames generalizing last with
    | nil => simp [runFrames_nil, speaksOf]
    | cons f fs ih =>
      obtain ⟨hf1, hf2⟩ := hall f (by simp)
      have hstep := recvApp_step cn f last hf1
      have hnl : (recvApp cn f last).newLast = s := by rw [hstep.2, hf2]
      have hsp : speaksOf (recvApp cn f last).events = (if s = last then [] else [s]) := by
        rw [hstep.1, hf2]
      have ihs : speaksOf (runFrames cn fs s).1 = [] := by
        rw [ih s (fun g hg => hall g (by simp [hg]))]
        simp
      have hrw : speaksOf (runFrames cn (f :: fs) last).1 =
          speaksOf (recvApp cn f last).events ++
            speaksOf (runFrames cn fs ((recvApp cn f last).newLast)).1 := by
        rw [runFrames_cons]
        simp [speaksOf, List.filterMap_append]
      rw [hrw, hnl, hsp, ihs]
      by_cases hsl : s = last
      · simp [hsl]
      · simp [hsl]
  · induction frames generalizing last with
    | nil => simp [runFrames_nil]
    | cons f fs ih =>
      obtain ⟨hf1, hf2⟩ := hall f (by simp)
      have hstep := recvApp_step cn f last hf1
      have hnl : (recvApp cn f last).newLast = s := by rw [hstep.2, hf2]
      have hrw2 : (runFrames cn (f :: fs) last).2 =
          (runFrames cn fs ((recvApp cn f last).newLast)).2 := by
        rw [runFrames_cons]
      rw [hrw2, hnl, ih s (fun g hg => hall g (by simp [hg]))]
      by_cases hfs : fs = []
      · simp [hfs]
      · simp [hfs]

/-- Witness for C2: two consecutive frames, each with one detection of
class 0 against the table `["cat"]`, starting from the empty remembered
sentence: speech for "cat ahead" happens exactly once. -/
theorem consecutive_identical_speak_once_witness :
    speaksOf (runFrames ["cat"] [[⟨0, (0, 0, 1, 1)⟩], [⟨0, (2, 2, 3, 3)⟩]] "").1 =
      ["cat ahead"] := by
  have h := (consecutive_identical_speak_once ["cat"] "cat ahead"
    [[⟨0, (0, 0, 1, 1)⟩], [⟨0, (2, 2, 3, 3)⟩]] "" (by decide)).1
  rw [h, if_neg (by decide)]

/-- C10: session invariant — starting from the initial empty remembered
sentence, the remembered sentence is always either `""` or the sentence
composed from the non-empty retained detection set of one of the frames
processed so far; moreover, within a single `recv` call, the remembered
sentence changes only when speech is synthesised for that exact
sentence, and the trace of such a call is the update of the remembered
sentence followed by the synthesis call, in that order. -/
theorem last_sentence_invariant (cn : List String) (frames : List (List Detection))
    (dets : List Detection) (last : String) :
    ((runFrames cn frames "").2 = "" ∨
      ∃ f ∈ frames, retainedLabels cn f ≠ [] ∧
        (runFrames cn frames "").2 = composeSentence (retainedLabels cn f)) ∧
    ((recvApp cn dets last).newLast ≠ last →
      (recvApp cn dets last).events =
        [Event.updateLast ((recvApp cn dets last).newLast),
         Event.speak SpeechBackend.gtts ((recvApp cn dets last).newLast)]) ∧
    (∀ s : String, Event.speak SpeechBackend.gtts s ∈ (recvApp cn dets last).events →
      (recvApp cn dets last).events = [Event.updateLast s, Event.speak SpeechBackend.gtts s]) := by
  refine ⟨runFrames_last_cases cn frames "", ?_, ?_⟩
  · intro hch
    rw [recvApp_eq] at hch ⊢
    by_cases h1 : retainedLabels cn dets = []
    · rw [if_pos h1] at hch
      exact absurd rfl hch
    · by_cases h2 : composeSentence (retainedLabels cn dets) = last
      · rw [if_neg h1, if_pos h2] at hch
        exact absurd rfl hch
      · rw [if_neg h1, if_neg h2]
  · intro s hs
    rw [recvApp_eq] at hs ⊢
    by_cases h1 : retainedLabels cn dets = []
    · rw [if_pos h1] at hs
      simp at hs
    · by_cases h2 : composeSentence (retainedLabels cn dets) = last
      · rw [if_neg h1, if_pos h2] at hs
        simp at hs
      · rw [if_neg h1, if_neg h2] at hs ⊢
        simp at hs
        rw [hs]

/-- Witness for C10: one frame with one in-range detection, empty
initial remembered sentence; the trace is the update of the remembered
sentence to "cat ahead" followed by its synthesis. -/
theorem last_sentence_invariant_witness :
    (recvApp ["cat"] [⟨0, (0, 0, 1, 1)⟩] "").events =
      [Event.updateLast "cat ahead", Event.speak SpeechBackend.gtts "cat ahead"] := by
  have h := (last_sentence_invariant ["cat"] [] [⟨0, (0, 0, 1, 1)⟩] "").2.1 (by decide)
  rw [h]
  decide

/-- C5: for a still-image capture, if the whitespace-normalised OCR
result is empty, the pipeline shows the "No text found in the image."
warning and synthesises no speech; otherwise it surfaces the extracted
text and synthesises speech for exactly that text. -/
theorem ocr_empty_vs_text (raw : List Char) :
    (normalizeText raw = [] →
      (ocrPipeline raw).warning = true ∧ (ocrPipeline raw).spoken = none ∧
        (ocrPipeline raw).displayedText = none) ∧
    (normalizeText raw ≠ [] →
      (ocrPipeline raw).warning = false ∧
        (ocrPipeline raw).displayedText = some (normalizeText raw) ∧
        (ocrPipeline raw).spoken = some (normalizeText raw)) := by
  by_cases h : normalizeText raw = []
  · refine ⟨fun _ => ?_, fun hne => absurd h hne⟩
    simp [ocrPipeline, h]
  · refine ⟨fun he => absurd he h, fun _ => ?_⟩
    simp [ocrPipeline, h]

/-- Witness for C5: an all-whitespace OCR result yields the warning and
no speech; the OCR result "hi" is surfaced and spoken. -/
theorem ocr_empty_vs_text_witness :
    ((ocrPipeline [' ', '\t']).warning = true ∧ (ocrPipeline [' ', '\t']).spoken = none ∧
      (ocrPipeline [' ', '\t']).displayedText = none) ∧
    ((ocrPipeline ['h', 'i']).warning = false ∧
      (ocrPipeline ['h', 'i']).displayedText = some (normalizeText ['h', 'i']) ∧
      (ocrPipeline ['h', 'i']).spoken = some (normalizeText ['h', 'i'])) := by
  constructor
  · apply (ocr_empty_vs_text [' ', '\t']).1
    unfold normalizeText
    rw [pyStrSplit_cons_ws _ (by decide), pyStrSplit_cons_ws _ (by decide), pyStrSplit_nil]
    rfl
  · apply (ocr_empty_vs_text ['h', 'i']).2
    unfold normalizeText
    rw [pyStrSplit_cons_nws _ (by decide),
      show (['i'] : List Char).dropWhile nws = [] from by decide, pyStrSplit_nil]
    decide

/-- C6: the text surfaced and spoken by the still-image pipeline —
`" ".join(text.split())` of the raw OCR string — equals the raw string
with every whitespace run collapsed to a single space and with leading
and trailing whitespace removed. -/
theorem normalizeText_eq_specNormalize (raw : List Char) :
    normalizeText raw = specNormalize raw := by
  unfold normalizeText
  exact normalize_aux raw.length raw (Nat.le_refl _)
